import Mathlib

/-!
Verification model of the Bitbucket Data Center CLI HTTP client
(`bbdc_cli/__main__.py`): configuration resolution (`_env`, `_norm_base`),
the derived API root, single-request classification (`BitbucketClient.request`)
and cursor pagination (`BitbucketClient.paged_get`).

JSON values decoded by `resp.json()` are modelled by `JValue`; Python `dict`
objects coming from JSON are association lists with unique keys, looked up
by first match.  Machine integers do not overflow here (Python ints are
unbounded), so counts and cursors are `Nat`/`Int`.
-/

set_option maxHeartbeats 1000000

namespace BBDC

/-- A decoded JSON value (`resp.json()` result).  Numbers are modelled as
integers: no claim concerns fractional numbers. -/
inductive JValue where
  | null : JValue
  | bool : Bool → JValue
  | num : Int → JValue
  | str : String → JValue
  | arr : List JValue → JValue
  | obj : List (String × JValue) → JValue

instance : Inhabited JValue := ⟨JValue.null⟩

/-- First-match lookup in the field list of a JSON object (Python `dict`
indexing; JSON-decoded dicts have unique keys, so first match is the match). -/
def lookupField : List (String × JValue) → String → Option JValue
  | [], _ => none
  | (k₁, v) :: rest, k => if k₁ = k then some v else lookupField rest k

/-- Model of `isinstance(j, dict)`. -/
def JValue.isObj : JValue → Bool
  | .obj _ => true
  | _ => false

/-- Model of `isinstance(v, list)`. -/
def JValue.isArr : JValue → Bool
  | .arr _ => true
  | _ => false

/-- Model of `v is None`. -/
def JValue.isNull : JValue → Bool
  | .null => true
  | _ => false

/-- Model of `j.get(k)` on a JSON object: `none` when the key is absent (and on
non-objects, where the callers below never apply it unguarded). -/
def jLookup : JValue → String → Option JValue
  | .obj fs, k => lookupField fs k
  | _, _ => none

/-- Model of `j.get(k, default)` on a JSON object. -/
def getKeyD (j : JValue) (k : String) (default : JValue) : JValue :=
  (jLookup j k).getD default

/-- Python truthiness of a JSON-decoded value (`if msg:` and friends). -/
def pyTruthy : JValue → Bool
  | .null => false
  | .bool b => b
  | .num n => n != 0
  | .str s => s != ""
  | .arr xs => !xs.isEmpty
  | .obj fs => !fs.isEmpty

/-- Model of `s.rstrip("/")`: drop every trailing slash. -/
def rstripSlash (s : String) : String :=
  String.mk ((s.data.reverse.dropWhile (fun c => c = '/')).reverse)

/-- Model of `s.lstrip("/")`: drop every leading slash. -/
def lstripSlash (s : String) : String :=
  String.mk (s.data.dropWhile (fun c => c = '/'))

/-- Model of `s.strip()`: drop leading and trailing whitespace. -/
def pyStrip (s : String) : String :=
  String.mk (((s.data.dropWhile Char.isWhitespace).reverse.dropWhile
    Char.isWhitespace).reverse)

/-- Model of `s.endswith(suffix)`. -/
def strEndsWith (s suffix : String) : Bool :=
  suffix.data.isSuffixOf s.data

/-- Membership of `needle` as a contiguous substring of `hay`
(Python `needle in hay`). -/
def listHasSub (needle : List Char) : List Char → Bool
  | [] => needle.isEmpty
  | c :: rest => needle.isPrefixOf (c :: rest) || listHasSub needle rest

/-- Model of `needle in hay` on strings. -/
def strContains (hay needle : String) : Bool :=
  listHasSub needle.data hay.data

/-- The single-quote character, written by code point to keep it out of
literals. -/
def sq : Char := Char.ofNat 39

/-- Python `repr` of a string: quote choice (single quotes unless the string
holds a single quote and no double quote) and the common escapes. -/
def pyReprString (s : String) : String :=
  let q : Char := if s.data.contains sq && !(s.data.contains '"') then '"' else sq
  let esc : Char → List Char := fun c =>
    if c = '\\' then ['\\', '\\']
    else if c = q then ['\\', q]
    else if c = '\n' then ['\\', 'n']
    else if c = '\r' then ['\\', 'r']
    else if c = '\t' then ['\\', 't']
    else [c]
  String.mk ([q] ++ (s.data.map esc).flatten ++ [q])

/-- Python `repr` of a JSON-decoded value. -/
def pyRepr : JValue → String
  | .null => "None"
  | .bool true => "True"
  | .bool false => "False"
  | .num n => toString n
  | .str s => pyReprString s
  | .arr xs => "[" ++ String.intercalate ", " (xs.attach.map (fun x => pyRepr x.1)) ++ "]"
  | .obj fs => "\x7b" ++ String.intercalate ", "
      (fs.attach.map (fun kv => pyReprString kv.1.1 ++ ": " ++ pyRepr kv.1.2)) ++ "\x7d"
decreasing_by
  · have := List.sizeOf_lt_of_mem x.2
    simp only [JValue.arr.sizeOf_spec]
    omega
  · rcases kv with ⟨⟨a, b⟩, hmem⟩
    have := List.sizeOf_lt_of_mem hmem
    simp only [JValue.obj.sizeOf_spec, Prod.mk.sizeOf_spec] at *
    omega

/-- Python `str` of a JSON-decoded value, as interpolated by an f-string. -/
def pyStr : JValue → String
  | .str s => s
  | v => pyRepr v

/-- The error class of the source: `class BBError(RuntimeError)` carries
nothing but the human-readable message passed at construction. -/
structure BBError where
  message : String
deriving DecidableEq

/-- The four error kinds named by the specification taxonomy
(`ConfigError.MissingVariable`, `ConfigError.InvalidBaseURL`,
`RequestError.Transport`, `RequestError.HTTPStatus`). -/
inductive ErrKind where
  | missingVariable
  | invalidBaseURL
  | transport
  | httpStatus
deriving DecidableEq

/-- Message of `_env` on a missing variable:
`f"Missing environment variable \x7bname\x7d."`. -/
def missingVarMsg (name : String) : String :=
  "Missing environment variable " ++ name ++ "."

/-- Message of `_norm_base` on a bad base URL. -/
def invalidBaseMsg (server : String) : String :=
  "BITBUCKET_SERVER must end with " ++ String.singleton sq ++ "/rest"
    ++ String.singleton sq
    ++ " (example: https://host/bitbucket/rest). Got: " ++ server

/-- Message of the transport-failure re-raise:
`f"Request failed: \x7be\x7d"`. -/
def transportMsg (e : String) : String := "Request failed: " ++ e

/-- Message of the HTTP-status failure:
`f"HTTP \x7bcode\x7d for \x7bmethod\x7d \x7burl\x7d"` plus `": detail"`
when the extracted detail is truthy. -/
def httpErrMsg (code : Nat) (method url : String) (detail : JValue) : String :=
  "HTTP " ++ toString code ++ " for " ++ method ++ " " ++ url ++
    (if pyTruthy detail then ": " ++ pyStr detail else "")

/-- Kind classification recoverable from a message string: each of the four
message formats opens with a distinct first character. -/
def msgKind (m : String) : Option ErrKind :=
  match m.data with
  | [] => none
  | c :: _ =>
    if c = 'M' then some .missingVariable
    else if c = 'B' then some .invalidBaseURL
    else if c = 'R' then some .transport
    else if c = 'H' then some .httpStatus
    else none

/-- Model of `_env(name)` with `value` the raw environment lookup
(`os.getenv(name, "")`). -/
def env_var (name : String) (value : Option String) : Except BBError String :=
  let v := pyStrip (value.getD "")
  if v = "" then .error ⟨missingVarMsg name⟩ else .ok v

/-- Model of `_norm_base(server)`: strip trailing slashes, then demand the
`/rest` suffix. -/
def norm_base (server : String) : Except BBError String :=
  let server := rstripSlash server
  if strEndsWith server "/rest" then .ok server
  else .error ⟨invalidBaseMsg server⟩

/-- The `api` property: `f"\x7bself.base_rest\x7d/api/latest"`. -/
def api (base_rest : String) : String := base_rest ++ "/api/latest"

/-- URL built by `request`:
`f"\x7bself.api\x7d/\x7bpath.lstrip(..)\x7d"`. -/
def buildUrl (base_rest path : String) : String :=
  api base_rest ++ "/" ++ lstripSlash path

/-- The HTTP response as `request` observes it: status code, the
`content-type` header (defaulted to `""` when absent), the body text
(`""` models an absent body, as Python tests `not resp.content`), and the
result of `resp.json()` (`none` when the body does not parse as JSON). -/
structure HttpResponse where
  statusCode : Nat
  contentType : String
  content : String
  json : Option JValue

/-- Outcome of the underlying `requests.request` call: either a
`requests.RequestException` with its rendered message, or a response. -/
inductive Exchange where
  | failure (msg : String)
  | success (r : HttpResponse)

/-- Result of `request`: a returned value, a raised `BBError`, or an
exception the source does not catch (only the `resp.json()` call on the
success path with a JSON content type can do this). -/
inductive ReqOutcome where
  | ok (v : JValue)
  | err (e : BBError)
  | pyRaise

/-- The best-effort error-detail extraction of `request` for status ≥ 400,
lines 104-117 of the source: try `errors[0].message` (kept only when
truthy), else fall back to a top-level string `message`; any exception
while reading the body (unparsable JSON, `errors[0]` not a mapping)
leaves the detail empty.  The fallback is skipped whenever the
`errors` key holds a nonempty list, matching the `elif`. -/
def errorDetail (body : Option JValue) : JValue :=
  match body with
  | none => .str ""
  | some j =>
    match j with
    | .obj fs =>
      match lookupField fs "errors" with
      | some (.arr (e₀ :: _)) =>
        match e₀ with
        | .obj efs =>
          let msg := (lookupField efs "message").getD .null
          if pyTruthy msg then msg else .str ""
        | _ => .str ""
      | _ =>
        match lookupField fs "message" with
        | some (.str s) => .str s
        | _ => .str ""
    | _ => .str ""

/-- Model of `BitbucketClient.request`, given the outcome of the wire exchange:
transport failures re-raise as `BBError`; status ≥ 400 raises the
HTTP-status `BBError`; otherwise an empty body yields `\x7b\x7d`, a JSON
content type yields the decoded body (raising past `request` when the
body does not parse), and anything else yields
`\x7b"raw": text\x7d`. -/
def request (method url : String) (ex : Exchange) : ReqOutcome :=
  match ex with
  | .failure e => .err ⟨transportMsg e⟩
  | .success r =>
    if 400 ≤ r.statusCode then
      .err ⟨httpErrMsg r.statusCode method url (errorDetail r.json)⟩
    else if r.content = "" then .ok (.obj [])
    else if strContains r.contentType "application/json" then
      match r.json with
      | some v => .ok v
      | none => .pyRaise
    else .ok (.obj [("raw", .str r.content)])

/-- Model of `params.update(\x7b key: v \x7d)` for one key on an insertion-ordered
mapping: replace the value in place when the key exists, append
otherwise. -/
def dictSet : List (String × JValue) → String → JValue → List (String × JValue)
  | [], k, v => [(k, v)]
  | (k₁, v₁) :: rest, k, v =>
    if k₁ = k then (k, v) :: rest else (k₁, v₁) :: dictSet rest k v

/-- Model of `page.get("values", [])`. -/
def pageValues (p : JValue) : JValue := getKeyD p "values" (.arr [])

/-- Model of `page.get("isLastPage", True)` as tested by `if` (Python truthiness;
the default is `True`, failing toward stopping). -/
def pageIsLast (p : JValue) : Bool :=
  pyTruthy (getKeyD p "isLastPage" (.bool true))

/-- Model of `page.get("nextPageStart")`, `JValue.null` standing for Python
`None` (key absent or value null). -/
def pageNext (p : JValue) : JValue := getKeyD p "nextPageStart" .null

/-- The items a page contributes to the accumulator: the `values` list when
it is a list, nothing otherwise (the `isinstance(values, list)` guard). -/
def valuesList (p : JValue) : List JValue :=
  match pageValues p with
  | .arr vs => vs
  | _ => []

/-- Python slice `out[:n]`: the first `n` items, counting from the end when
`n` is negative. -/
def pySliceTo (xs : List JValue) (n : Int) : List JValue :=
  if 0 ≤ n then xs.take n.toNat else xs.take (xs.length - (-n).toNat)

/-- What a `paged_get` run produces: the accumulated items, a `BBError`
raised by `request` inside the loop and propagated, or the uncaught
`AttributeError` hit when a page decodes to a non-mapping. -/
inductive PagedResult where
  | ok (items : List JValue)
  | raised (e : BBError)
  | crash

/-- The body of `paged_get`'s `while True` loop, with explicit fuel
(`none` = the loop is still running after `fuel` iterations).  `serve i`
is what the `i`-th issued `self.request("GET", path, params=params)`
evaluates to: the decoded page, or the `BBError` it raises.  `start` is
the cursor variable (a decoded JSON value: the source stores
`page.get("nextPageStart")` into it unchecked), `params` the mutated
query-parameter dict, `out` the accumulator.  The returned trace lists
the `params` dict of every issued request, in order. -/
def pagedGetAux (serve : Nat → Except BBError JValue) (limit max_items : Int) :
    Nat → Nat → JValue → List (String × JValue) → List JValue →
    Option (List (List (String × JValue)) × PagedResult)
  | 0, _, _, _, _ => none
  | fuel + 1, idx, start, params, out =>
    let params := dictSet (dictSet params "start" start) "limit" (.num limit)
    match serve idx with
    | .error e => some ([params], .raised e)
    | .ok page =>
      if page.isObj then
        let out := match pageValues page with
          | .arr vs => out ++ vs
          | _ => out
        if max_items ≤ (out.length : Int) then
          some ([params], .ok (pySliceTo out max_items))
        else if pageIsLast page then some ([params], .ok out)
        else if (pageNext page).isNull then some ([params], .ok out)
        else
          match pagedGetAux serve limit max_items fuel (idx + 1)
              (pageNext page) params out with
          | none => none
          | some (trace, res) => some (params :: trace, res)
      else some ([params], .crash)

/-- Model of `BitbucketClient.paged_get`: cursor starts at `0`, accumulator empty,
caller params copied (`dict(params or \x7b\x7d)`). -/
def paged_get (serve : Nat → Except BBError JValue)
    (params : Option (List (String × JValue))) (limit max_items : Int)
    (fuel : Nat) : Option (List (List (String × JValue)) × PagedResult) :=
  pagedGetAux serve limit max_items fuel 0 (.num 0) (params.getD []) []

/-- Well-formed served page sequence for the pagination-concatenation
claim: every page is a mapping with a `values` list; every non-final page
reports `isLastPage` false, supplies a non-null cursor, and leaves the
accumulated length strictly below `max_items`; the final page reports
`isLastPage` true and leaves the accumulated length at most
`max_items`.  `acc` is the item count accumulated before the first
listed page. -/
def goodPagesB (max_items : Int) : Int → List JValue → Bool
  | _, [] => false
  | acc, [p] =>
    p.isObj && (pageValues p).isArr && pageIsLast p &&
      decide (acc + ((valuesList p).length : Int) ≤ max_items)
  | acc, p :: q :: rest =>
    p.isObj && (pageValues p).isArr && !(pageIsLast p) &&
      !((pageNext p).isNull) &&
      decide (acc + ((valuesList p).length : Int) < max_items) &&
      goodPagesB max_items (acc + ((valuesList p).length : Int)) (q :: rest)

/-- Served page sequence ending at the first page where the accumulator
reaches the `max_items` cap: every earlier page is a linked non-final
page leaving the count strictly below the cap, and the final listed page
pushes the count to the cap or beyond. -/
def capPagesB (max_items : Int) : Int → List JValue → Bool
  | _, [] => false
  | acc, [p] =>
    p.isObj && (pageValues p).isArr &&
      decide (max_items ≤ acc + ((valuesList p).length : Int))
  | acc, p :: q :: rest =>
    p.isObj && (pageValues p).isArr && !(pageIsLast p) &&
      !((pageNext p).isNull) &&
      decide (acc + ((valuesList p).length : Int) < max_items) &&
      capPagesB max_items (acc + ((valuesList p).length : Int)) (q :: rest)

/-- First page of the C1 counterexample server: three items, not last,
cursor 3. -/
def c1Page0 : JValue :=
  .obj [("values", .arr [.num 1, .num 2, .num 3]),
        ("isLastPage", .bool false), ("nextPageStart", .num 3)]

/-- Second page of the C1 counterexample server: no items, last. -/
def c1Page1 : JValue := .obj [("values", .arr []), ("isLastPage", .bool true)]

/-- The C1 counterexample server: the fixed sequence `[c1Page0, c1Page1]`
served in order. -/
def c1Serve : Nat → Except BBError JValue :=
  fun i => if i = 0 then .ok c1Page0 else .ok c1Page1

/-- A misbehaving server: every page has an empty `values` list, reports
`isLastPage` false and supplies the advancing cursor `i + 1`. -/
def emptyPagesServe : Nat → Except BBError JValue := fun i =>
  .ok (.obj [("values", .arr []), ("isLastPage", .bool false),
             ("nextPageStart", .num (Int.ofNat i + 1))])

/-- A server of single-item linked pages with advancing cursors that never
reports a last page. -/
def oneItemServe : Nat → Except BBError JValue := fun i =>
  .ok (.obj [("values", .arr [.num 7]), ("isLastPage", .bool false),
             ("nextPageStart", .num (Int.ofNat i + 1))])

/-- Two well-formed linked pages used by witnesses. -/
def w1Page0 : JValue :=
  .obj [("values", .arr [.num 10, .num 20]),
        ("isLastPage", .bool false), ("nextPageStart", .num 2)]

/-- Final page used by witnesses. -/
def w1Page1 : JValue := .obj [("values", .arr [.num 30]), ("isLastPage", .bool true)]

/-- Witness server: serves `[w1Page0, w1Page1]` in order. -/
def w1Serve : Nat → Except BBError JValue :=
  fun i => if i = 0 then .ok w1Page0 else .ok w1Page1

/-- Non-final two-item pages used by the C5 witness. -/
def w5Page0 : JValue :=
  .obj [("values", .arr [.num 1, .num 2]),
        ("isLastPage", .bool false), ("nextPageStart", .num 2)]

/-- Second two-item page used by the C5 witness. -/
def w5Page1 : JValue :=
  .obj [("values", .arr [.num 3, .num 4]),
        ("isLastPage", .bool false), ("nextPageStart", .num 4)]

/-- C5 witness server: serves `[w5Page0, w5Page1, ...]`. -/
def w5Serve : Nat → Except BBError JValue :=
  fun i => if i = 0 then .ok w5Page0 else .ok w5Page1

/-- A page with no `isLastPage` key at all (C6 witness, shape a). -/
def w6PageA : JValue := .obj [("values", .arr [.num 5])]

/-- A page reporting `isLastPage` false but carrying no cursor
(C6 witness, shape b). -/
def w6PageB : JValue :=
  .obj [("values", .arr [.num 6]), ("isLastPage", .bool false)]

/-- Error body used by the C2 witness: both an `errors` list with a
message and a top-level `message`. -/
def w2Body : JValue :=
  .obj [("errors", .arr [.obj [("message", .str "nope")]]),
        ("message", .str "top")]

/-- Response used by the C2 witness: a 404 with both error shapes. -/
def w2Resp : HttpResponse := ⟨404, "application/json", "x", some w2Body⟩

/-! ### Theorems -/

/-- C2: for every response with status code ≥ 400, `request` raises the
`BBError` built by `httpErrMsg` from that status code (its message
classifies as the HTTP-status kind), whatever the body decoded to — even
`none`, an unparsable body.  And whenever the decoded error body is an
object holding both a nonempty `errors` list whose first element carries
a nonempty string `message` and a top-level string `message`, the
extracted advisory detail is the first error's message, not the
top-level one. -/
theorem C2_http_status_errors (method url : String) (r : HttpResponse)
    (h : 400 ≤ r.statusCode) :
    request method url (.success r)
      = .err ⟨httpErrMsg r.statusCode method url (errorDetail r.json)⟩ ∧
    msgKind (httpErrMsg r.statusCode method url (errorDetail r.json))
      = some .httpStatus ∧
    (∀ (fs efs : List (String × JValue)) (es : List JValue) (s t : String),
      lookupField fs "errors" = some (.arr (.obj efs :: es)) →
      lookupField efs "message" = some (.str s) → s ≠ "" →
      lookupField fs "message" = some (.str t) →
      errorDetail (some (.obj fs)) = .str s) := by
  refine ⟨?_, rfl, ?_⟩
  · simp [request, h]
  · intro fs efs es s t herr hmsg hs _
    simp [errorDetail, herr, hmsg, pyTruthy, hs]

/-- Witness for C2: a concrete 404 response whose body holds both error
shapes; the raised message carries the code and the first error's
message `"nope"`, not the top-level `"top"`. -/
theorem C2_witness :
    request "GET" "u" (.success w2Resp)
      = .err ⟨httpErrMsg 404 "GET" "u" (errorDetail (some w2Body))⟩ ∧
    errorDetail (some w2Body) = .str "nope" := by
  have h := C2_http_status_errors "GET" "u" w2Resp (by decide)
  exact ⟨h.1, h.2.2 _ _ [] "nope" "top" rfl rfl (by decide) rfl⟩

/-- C3: configuration resolution of the base URL fails with the
invalid-base-URL error exactly when the URL, after stripping trailing
slashes, does not end in `/rest`; when it does, resolution returns the
stripped URL and the derived API root appends `/api/latest` to it. -/
theorem C3_base_url (server : String) :
    (strEndsWith (rstripSlash server) "/rest" = false →
      norm_base server = .error ⟨invalidBaseMsg (rstripSlash server)⟩ ∧
      msgKind (invalidBaseMsg (rstripSlash server)) = some .invalidBaseURL) ∧
    (strEndsWith (rstripSlash server) "/rest" = true →
      norm_base server = .ok (rstripSlash server) ∧
      api (rstripSlash server) = rstripSlash server ++ "/api/latest") := by
  constructor
  · intro h
    refine ⟨?_, rfl⟩
    simp [norm_base, h]
  · intro h
    refine ⟨?_, rfl⟩
    simp [norm_base, h]

/-- Witness for C3: a URL with trailing slashes resolves to its stripped
form, the API root appends the fixed version segment, and a URL missing
the suffix is rejected. -/
theorem C3_witness :
    norm_base "https://host/bitbucket/rest///" = .ok "https://host/bitbucket/rest" ∧
    api "https://host/bitbucket/rest" = "https://host/bitbucket/rest/api/latest" ∧
    norm_base "https://host/bitbucket" = .error ⟨invalidBaseMsg "https://host/bitbucket"⟩ := by
  refine ⟨?_, rfl, ?_⟩
  · exact ((C3_base_url "https://host/bitbucket/rest///").2 (by decide)).1
  · exact ((C3_base_url "https://host/bitbucket").1 (by decide)).1

/-- C4: on every response with status < 400, an empty body returns the
empty mapping; a JSON content type returns the decoded body; a non-JSON
content type with a nonempty body returns the raw-text mapping — never a
failure. -/
theorem C4_success_bodies (method url : String) (r : HttpResponse)
    (h : r.statusCode < 400) :
    (r.content = "" → request method url (.success r) = .ok (.obj [])) ∧
    (r.content ≠ "" → strContains r.contentType "application/json" = true →
      ∀ v, r.json = some v → request method url (.success r) = .ok v) ∧
    (r.content ≠ "" → strContains r.contentType "application/json" = false →
      request method url (.success r) = .ok (.obj [("raw", .str r.content)])) := by
  have h400 : ¬ 400 ≤ r.statusCode := by omega
  refine ⟨?_, ?_, ?_⟩
  · intro hc; simp [request, h400, hc]
  · intro hc hct v hv; simp [request, h400, hc, hct, hv]
  · intro hc hct; simp [request, h400, hc, hct]

/-- Witness for C4: three concrete 200 responses — empty body, JSON body,
and plain-text body. -/
theorem C4_witness :
    request "GET" "u" (.success ⟨200, "application/json", "", none⟩) = .ok (.obj []) ∧
    request "GET" "u" (.success ⟨200, "application/json;charset=UTF-8", "j",
        some (.obj [("id", .num 1)])⟩) = .ok (.obj [("id", .num 1)]) ∧
    request "GET" "u" (.success ⟨200, "text/plain", "hello", none⟩)
      = .ok (.obj [("raw", .str "hello")]) := by
  refine ⟨?_, ?_, ?_⟩
  · exact (C4_success_bodies "GET" "u" _ (by decide)).1 rfl
  · exact (C4_success_bodies "GET" "u" _ (by decide)).2.1 (by decide) (by decide) _ rfl
  · exact (C4_success_bodies "GET" "u" _ (by decide)).2.2 (by decide) (by decide)

/-- C8: every transport-level failure of the wire exchange is caught and
re-raised as the `BBError` whose message prepends `"Request failed: "`
to the underlying message (classifying as the transport kind); no raw
transport exception ever reaches the caller of `request`. -/
theorem C8_transport (method url e : String) :
    request method url (.failure e) = .err ⟨transportMsg e⟩ ∧
    msgKind (transportMsg e) = some .transport :=
  ⟨rfl, rfl⟩

/-- C9 counterexample: the source surfaces every failure as the single
class `BBError`, whose only content is the message string.  A kind
extractor that does not read the message is therefore a constant
function on `BBError`, and no constant function separates a transport
failure from an HTTP-status failure.  This refutes the claim that a
caller can branch on the error kind without parsing the human-readable
message. -/
theorem C9_counterexample :
    ¬ ∃ f : BBError → ErrKind,
        (∀ e₁ e₂ : BBError, f e₁ = f e₂) ∧
        f ⟨transportMsg "connection refused"⟩ = .transport ∧
        f ⟨httpErrMsg 404 "GET" "u" (.str "")⟩ = .httpStatus := by
  rintro ⟨f, hconst, h₁, h₂⟩
  have h := hconst ⟨transportMsg "connection refused"⟩
    ⟨httpErrMsg 404 "GET" "u" (.str "")⟩
  rw [h₁, h₂] at h
  exact ErrKind.noConfusion h

/-- C9 (amended): every surfaced error is the single class `BBError`
carrying only a message; the four kinds are distinguishable, but only by
examining that message, whose four fixed formats open with four distinct
first characters — `msgKind` recovers the kind from the message alone,
and an HTTP-status error arises only for status ≥ 400. -/
theorem C9_amended (name : String) (value : Option String)
    (server method url emsg : String) (r : HttpResponse) :
    (∀ e, env_var name value = .error e →
      msgKind e.message = some .missingVariable) ∧
    (∀ e, norm_base server = .error e →
      msgKind e.message = some .invalidBaseURL) ∧
    (∀ e, request method url (.failure emsg) = .err e →
      msgKind e.message = some .transport) ∧
    (∀ e, request method url (.success r) = .err e →
      msgKind e.message = some .httpStatus ∧ 400 ≤ r.statusCode) := by
  refine ⟨?_, ?_, ?_, ?_⟩
  · intro e he
    rw [env_var] at he
    split at he
    · simp only [Except.error.injEq] at he
      subst he; rfl
    · simp at he
  · intro e he
    rw [norm_base] at he
    split at he
    · simp at he
    · simp only [Except.error.injEq] at he
      subst he; rfl
  · intro e he
    simp only [request, ReqOutcome.err.injEq] at he
    subst he; rfl
  · intro e he
    simp only [request] at he
    split at he
    · simp only [ReqOutcome.err.injEq] at he
      subst he
      constructor
      · rfl
      · omega
    · split at he
      · simp at he
      · split at he
        · split at he <;> simp at he
        · simp at he

/-- Witness for C9: concrete errors of all four kinds, classified from
their messages alone. -/
theorem C9_witness :
    msgKind (missingVarMsg "BITBUCKET_SERVER") = some .missingVariable ∧
    msgKind (invalidBaseMsg "https://host") = some .invalidBaseURL ∧
    msgKind (transportMsg "boom") = some .transport ∧
    msgKind (httpErrMsg 404 "GET" "u" (errorDetail (some w2Body)))
      = some .httpStatus := by
  have h := C9_amended "BITBUCKET_SERVER" none "https://host" "GET" "u" "boom" w2Resp
  exact ⟨h.1 ⟨missingVarMsg "BITBUCKET_SERVER"⟩ rfl,
    h.2.1 ⟨invalidBaseMsg "https://host"⟩ rfl,
    h.2.2.1 ⟨transportMsg "boom"⟩ rfl,
    (h.2.2.2 ⟨httpErrMsg 404 "GET" "u" (errorDetail (some w2Body))⟩ rfl).1⟩

/-- A value passing the `isinstance(values, list)` test is a list. -/
theorem isArr_exists {v : JValue} (h : v.isArr = true) : ∃ vs, v = .arr vs := by
  cases v <;> simp_all [JValue.isArr]

/-- Looking up the key just set by `dict.update`. -/
theorem lookupField_dictSet_self (d : List (String × JValue)) (k : String)
    (v : JValue) : lookupField (dictSet d k v) k = some v := by
  induction d with
  | nil => simp [dictSet, lookupField]
  | cons kv rest IH =>
    rcases kv with ⟨k₁, v₁⟩
    by_cases h : k₁ = k
    · simp [dictSet, lookupField, h]
    · simp [dictSet, lookupField, h, IH]

/-- `dict.update` on one key leaves every other key unchanged. -/
theorem lookupField_dictSet_ne (d : List (String × JValue)) (k k' : String)
    (v : JValue) (h : k' ≠ k) :
    lookupField (dictSet d k v) k' = lookupField d k' := by
  induction d with
  | nil => simp [dictSet, lookupField, Ne.symm h]
  | cons kv rest IH =>
    rcases kv with ⟨k₁, v₁⟩
    by_cases h₁ : k₁ = k
    · subst h₁
      simp [dictSet, lookupField, Ne.symm h]
    · by_cases h₂ : k₁ = k'
      · subst h₂
        simp [dictSet, lookupField, h₁, h]
      · simp [dictSet, lookupField, h₁, h₂, IH]

/-- Running the loop over a well-formed linked page sequence: the
accumulator collects every page's `values` in order, one request per
page, and the loop returns at the final page. -/
theorem pagedGetAux_goodPages (serve : Nat → Except BBError JValue)
    (limit max_items : Int) :
    ∀ (ps : List JValue) (fuel idx : Nat) (start : JValue)
      (params : List (String × JValue)) (out : List JValue),
      ps.length ≤ fuel →
      (∀ i, i < ps.length → serve (idx + i) = .ok (ps.getD i .null)) →
      goodPagesB max_items ((out.length : Int)) ps = true →
      ∃ trace,
        pagedGetAux serve limit max_items fuel idx start params out
          = some (trace, .ok (out ++ (ps.map valuesList).flatten)) ∧
        trace.length = ps.length := by
  intro ps
  induction ps with
  | nil =>
    intro fuel idx start params out _ _ hgood
    simp [goodPagesB] at hgood
  | cons p rest IH =>
    intro fuel idx start params out hfuel hserve hgood
    obtain ⟨f, rfl⟩ : ∃ f, fuel = f + 1 := ⟨fuel - 1, by simp at hfuel; omega⟩
    have hs0 : serve idx = .ok p := by simpa using hserve 0 (by simp)
    cases rest with
    | nil =>
      simp only [goodPagesB, Bool.and_eq_true, decide_eq_true_eq] at hgood
      obtain ⟨⟨⟨hobj, harr⟩, hlast⟩, hle⟩ := hgood
      obtain ⟨vs, hvs⟩ := isArr_exists harr
      have hvl : valuesList p = vs := by rw [valuesList, hvs]
      rw [hvl] at hle
      simp only [pagedGetAux, hs0, hobj, hvs, if_true]
      by_cases hcap : max_items ≤ (((out ++ vs).length : Int))
      · have hlen : ((out ++ vs).length : Int) = max_items := by
          simp only [List.length_append] at hcap ⊢
          push_cast at hcap hle ⊢
          omega
        refine ⟨[dictSet (dictSet params "start" start) "limit" (.num limit)],
          ?_, rfl⟩
        rw [if_pos hcap]
        have h0 : 0 ≤ max_items := by
          rw [← hlen]; positivity
        have hsl : pySliceTo (out ++ vs) max_items = out ++ vs := by
          rw [pySliceTo, if_pos h0]
          have : max_items.toNat = (out ++ vs).length := by omega
          rw [this, List.take_length]
        rw [hsl]
        simp [hvl]
      · rw [if_neg hcap, if_pos hlast]
        refine ⟨[dictSet (dictSet params "start" start) "limit" (.num limit)],
          ?_, rfl⟩
        simp [hvl]
    | cons q rest' =>
      simp only [goodPagesB, Bool.and_eq_true, Bool.not_eq_true',
        decide_eq_true_eq] at hgood
      obtain ⟨⟨⟨⟨⟨hobj, harr⟩, hlast⟩, hnext⟩, hlt⟩, htail⟩ := hgood
      obtain ⟨vs, hvs⟩ := isArr_exists harr
      have hvl : valuesList p = vs := by rw [valuesList, hvs]
      rw [hvl] at hlt htail
      simp only [pagedGetAux, hs0, hobj, hvs, if_true]
      have hcap : ¬ max_items ≤ (((out ++ vs).length : Int)) := by
        simp only [List.length_append]
        push_cast at hlt ⊢
        omega
      have hl : ¬ (pageIsLast p = true) := by simp [hlast]
      have hn : ¬ ((pageNext p).isNull = true) := by simp [hnext]
      rw [if_neg hcap, if_neg hl, if_neg hn]
      have hserve' : ∀ i, i < (q :: rest').length →
          serve (idx + 1 + i) = .ok ((q :: rest').getD i .null) := by
        intro i hi
        have hi' : i + 1 < (p :: q :: rest').length := by
          simp only [List.length_cons] at hi ⊢
          omega
        have hstep := hserve (i + 1) hi'
        have hidx : idx + (i + 1) = idx + 1 + i := by omega
        rw [hidx] at hstep
        simpa using hstep
      have htail' : goodPagesB max_items (((out ++ vs).length : Int))
          (q :: rest') = true := by
        have : (((out ++ vs).length : Int)) = (out.length : Int) + (vs.length : Int) := by
          simp [List.length_append]
        rw [this]
        exact htail
      obtain ⟨trace, htr, hlen⟩ :=
        IH f (idx + 1) (pageNext p)
          (dictSet (dictSet params "start" start) "limit" (.num limit))
          (out ++ vs) (by simp at hfuel ⊢; omega) hserve' htail'
      rw [htr]
      refine ⟨dictSet (dictSet params "start" start) "limit" (.num limit)
        :: trace, ?_, by simp [hlen]⟩
      simp [hvl, List.append_assoc]

/-- C1 counterexample: the fixed page sequence `[c1Page0, c1Page1]` has
`isLastPage` false then true and a total of 3 items, which is at most
`max_items = 3`; the claim then demands exactly 2 requests, but the run
returns after a single request (one entry in the trace), because the cap
check `len(out) >= max_items` fires before `isLastPage` is consulted. -/
theorem C1_counterexample :
    paged_get c1Serve .none 50 3 2
      = some ([[("start", JValue.num 0), ("limit", JValue.num 50)]],
          .ok [.num 1, .num 2, .num 3]) ∧ (1 : Nat) ≠ 1 + 1 :=
  ⟨rfl, by omega⟩

/-- C1 (amended): for a fixed linked page sequence — every non-final page
an object with a `values` list, `isLastPage` false and a non-null
cursor, the final page with `isLastPage` true — whose accumulated length
stays strictly below `max_items` after every non-final page and is at
most `max_items` in total, `paged_get` returns the concatenation of all
`values` in server order and issues exactly one request per page. -/
theorem C1_amended_pagination (serve : Nat → Except BBError JValue)
    (params0 : Option (List (String × JValue))) (limit max_items : Int)
    (ps : List JValue)
    (hserve : ∀ i, i < ps.length → serve i = .ok (ps.getD i .null))
    (hgood : goodPagesB max_items 0 ps = true) :
    ∀ fuel, ps.length ≤ fuel →
      ∃ trace,
        paged_get serve params0 limit max_items fuel
          = some (trace, .ok ((ps.map valuesList).flatten)) ∧
        trace.length = ps.length := by
  intro fuel hfuel
  have h := pagedGetAux_goodPages serve limit max_items ps fuel 0 (.num 0)
    (params0.getD []) [] hfuel
    (by intro i hi; simpa using hserve i hi)
    (by simpa using hgood)
  simpa [paged_get] using h

/-- Witness for C1: two linked pages with 2 and 1 items, cap 200; the
run returns all three items in order after exactly two requests. -/
theorem C1_witness :
    ∃ trace,
      paged_get w1Serve .none 50 200 2
        = some (trace, .ok [.num 10, .num 20, .num 30]) ∧
      trace.length = 2 := by
  have h := C1_amended_pagination w1Serve .none 50 200 [w1Page0, w1Page1]
    ?_ (by decide) 2 (by simp)
  · obtain ⟨trace, htr, hlen⟩ := h
    refine ⟨trace, ?_, hlen⟩
    rw [htr]
    rfl
  · intro i hi
    rcases i with _ | _ | i
    · rfl
    · rfl
    · simp only [List.length_cons, List.length_nil] at hi
      omega

/-- A cap-ending page sequence carries at least the cap in total. -/
theorem capPagesB_total (max_items : Int) :
    ∀ (ps : List JValue) (acc : Int),
      capPagesB max_items acc ps = true →
      max_items ≤ acc + (((ps.map valuesList).flatten.length : Int)) := by
  intro ps
  induction ps with
  | nil =>
    intro acc h
    simp [capPagesB] at h
  | cons p rest IH =>
    intro acc h
    cases rest with
    | nil =>
      simp only [capPagesB, Bool.and_eq_true, decide_eq_true_eq] at h
      obtain ⟨⟨hobj, harr⟩, hle⟩ := h
      simp only [List.map_cons, List.map_nil, List.flatten_cons,
        List.flatten_nil, List.append_nil]
      exact hle
    | cons q rest' =>
      simp only [capPagesB, Bool.and_eq_true, Bool.not_eq_true',
        decide_eq_true_eq] at h
      obtain ⟨⟨⟨⟨⟨hobj, harr⟩, hlast⟩, hnext⟩, hlt⟩, htail⟩ := h
      have hr := IH (acc + ((valuesList p).length : Int)) htail
      simp only [List.map_cons, List.flatten_cons, List.length_append] at hr ⊢
      push_cast at hr ⊢
      omega

/-- Running the loop over pages linked up to the first cap-reaching page:
the loop returns the first `max_items` accumulated items at that page,
one request per listed page. -/
theorem pagedGetAux_capPages (serve : Nat → Except BBError JValue)
    (limit max_items : Int) (hmax : 0 ≤ max_items) :
    ∀ (ps : List JValue) (fuel idx : Nat) (start : JValue)
      (params : List (String × JValue)) (out : List JValue),
      ps.length ≤ fuel →
      (∀ i, i < ps.length → serve (idx + i) = .ok (ps.getD i .null)) →
      capPagesB max_items ((out.length : Int)) ps = true →
      ∃ trace,
        pagedGetAux serve limit max_items fuel idx start params out
          = some (trace, .ok ((out ++ (ps.map valuesList).flatten).take
              max_items.toNat)) ∧
        trace.length = ps.length := by
  intro ps
  induction ps with
  | nil =>
    intro fuel idx start params out _ _ hcap
    simp [capPagesB] at hcap
  | cons p rest IH =>
    intro fuel idx start params out hfuel hserve hcap
    obtain ⟨f, rfl⟩ : ∃ f, fuel = f + 1 := ⟨fuel - 1, by simp at hfuel; omega⟩
    have hs0 : serve idx = .ok p := by simpa using hserve 0 (by simp)
    cases rest with
    | nil =>
      simp only [capPagesB, Bool.and_eq_true, decide_eq_true_eq] at hcap
      obtain ⟨⟨hobj, harr⟩, hle⟩ := hcap
      obtain ⟨vs, hvs⟩ := isArr_exists harr
      have hvl : valuesList p = vs := by rw [valuesList, hvs]
      rw [hvl] at hle
      simp only [pagedGetAux, hs0, hobj, hvs, if_true]
      have hc : max_items ≤ (((out ++ vs).length : Int)) := by
        simp only [List.length_append]
        push_cast at hle ⊢
        omega
      rw [if_pos hc]
      refine ⟨[dictSet (dictSet params "start" start) "limit" (.num limit)],
        ?_, rfl⟩
      rw [pySliceTo, if_pos hmax]
      simp [hvl]
    | cons q rest' =>
      simp only [capPagesB, Bool.and_eq_true, Bool.not_eq_true',
        decide_eq_true_eq] at hcap
      obtain ⟨⟨⟨⟨⟨hobj, harr⟩, hlast⟩, hnext⟩, hlt⟩, htail⟩ := hcap
      obtain ⟨vs, hvs⟩ := isArr_exists harr
      have hvl : valuesList p = vs := by rw [valuesList, hvs]
      rw [hvl] at hlt htail
      simp only [pagedGetAux, hs0, hobj, hvs, if_true]
      have hc : ¬ max_items ≤ (((out ++ vs).length : Int)) := by
        simp only [List.length_append]
        push_cast at hlt ⊢
        omega
      have hl : ¬ (pageIsLast p = true) := by simp [hlast]
      have hn : ¬ ((pageNext p).isNull = true) := by simp [hnext]
      rw [if_neg hc, if_neg hl, if_neg hn]
      have hserve' : ∀ i, i < (q :: rest').length →
          serve (idx + 1 + i) = .ok ((q :: rest').getD i .null) := by
        intro i hi
        have hi' : i + 1 < (p :: q :: rest').length := by
          simp only [List.length_cons] at hi ⊢
          omega
        have hstep := hserve (i + 1) hi'
        have hidx : idx + (i + 1) = idx + 1 + i := by omega
        rw [hidx] at hstep
        simpa using hstep
      have htail' : capPagesB max_items (((out ++ vs).length : Int))
          (q :: rest') = true := by
        have hc2 : (((out ++ vs).length : Int))
            = (out.length : Int) + (vs.length : Int) := by
          simp [List.length_append]
        rw [hc2]
        exact htail
      obtain ⟨trace, htr, hlen⟩ :=
        IH f (idx + 1) (pageNext p)
          (dictSet (dictSet params "start" start) "limit" (.num limit))
          (out ++ vs) (by simp at hfuel ⊢; omega) hserve' htail'
      rw [htr]
      refine ⟨dictSet (dictSet params "start" start) "limit" (.num limit)
        :: trace, ?_, by simp [hlen]⟩
      simp [hvl, List.append_assoc]

/-- C5: when the cap `k` (nonnegative) is reached at some page of a linked
well-formed sequence — every earlier page leaving the count strictly
below `k` — `paged_get` returns exactly the first `k` items in server
order, and the trace shows one request per page up to and including the
cap-reaching page, none beyond (the server's behaviour past that page is
unconstrained). -/
theorem C5_max_items_cap (serve : Nat → Except BBError JValue)
    (params0 : Option (List (String × JValue))) (limit k : Int)
    (ps : List JValue) (hk : 0 ≤ k)
    (hserve : ∀ i, i < ps.length → serve i = .ok (ps.getD i .null))
    (hcap : capPagesB k 0 ps = true) :
    ∀ fuel, ps.length ≤ fuel →
      ∃ trace items,
        paged_get serve params0 limit k fuel = some (trace, .ok items) ∧
        items = ((ps.map valuesList).flatten).take k.toNat ∧
        (items.length : Int) = k ∧
        trace.length = ps.length := by
  intro fuel hfuel
  obtain ⟨trace, htr, hlen⟩ := pagedGetAux_capPages serve limit k hk ps fuel 0
    (.num 0) (params0.getD []) [] hfuel
    (by intro i hi; simpa using hserve i hi) (by simpa using hcap)
  have htot := capPagesB_total k ps 0 hcap
  refine ⟨trace, ((ps.map valuesList).flatten).take k.toNat,
    by simpa [paged_get] using htr, rfl, ?_, hlen⟩
  rw [List.length_take]
  push_cast
  omega

/-- Witness for C5: cap 3 over two linked two-item pages; the run returns
the first three items after exactly two requests. -/
theorem C5_witness :
    ∃ trace,
      paged_get w5Serve .none 50 3 2
        = some (trace, .ok [.num 1, .num 2, .num 3]) ∧
      trace.length = 2 := by
  have hs : ∀ i, i < ([w5Page0, w5Page1] : List JValue).length →
      w5Serve i = .ok (([w5Page0, w5Page1] : List JValue).getD i .null) := by
    intro i hi
    rcases i with _ | _ | i
    · rfl
    · rfl
    · simp only [List.length_cons, List.length_nil] at hi
      omega
  obtain ⟨trace, items, htr, hitems, hlen, htlen⟩ :=
    C5_max_items_cap w5Serve .none 50 3 [w5Page0, w5Page1] (by decide)
      hs (by decide) 2 (by simp)
  refine ⟨trace, ?_, htlen⟩
  rw [htr, hitems]
  rfl

/-- C6: defensive page shapes stop the loop cleanly, from any accumulator
state (the `paged_get` entry state is the `out = []` instance).  Shape
(a): a page with no `isLastPage` key is treated as a last page and the
loop returns the accumulator (extended by the page's `values`) as-is.
Shape (b): a page reporting `isLastPage` false whose `nextPageStart` is
absent or null returns the same way.  In both shapes the result is a
normal return — no error, no crash — after this single request. -/
theorem C6_defensive_stops (serve : Nat → Except BBError JValue)
    (limit max_items : Int) (fuel idx : Nat) (start : JValue)
    (params : List (String × JValue)) (out : List JValue) (p : JValue)
    (vs : List JValue) (hserve : serve idx = .ok p) (hobj : p.isObj = true)
    (hvs : pageValues p = .arr vs)
    (hcap : ((out.length : Int)) + ((vs.length : Int)) < max_items) :
    (jLookup p "isLastPage" = none →
      pagedGetAux serve limit max_items (fuel + 1) idx start params out
        = some ([dictSet (dictSet params "start" start) "limit" (.num limit)],
            .ok (out ++ vs))) ∧
    (jLookup p "isLastPage" = some (.bool false) → pageNext p = .null →
      pagedGetAux serve limit max_items (fuel + 1) idx start params out
        = some ([dictSet (dictSet params "start" start) "limit" (.num limit)],
            .ok (out ++ vs))) := by
  have hc : ¬ max_items ≤ (((out ++ vs).length : Int)) := by
    simp only [List.length_append]
    push_cast at hcap ⊢
    omega
  constructor
  · intro hmissing
    have hl : pageIsLast p = true := by
      rw [pageIsLast, getKeyD, hmissing]
      rfl
    simp only [pagedGetAux, hserve, hobj, hvs, if_true]
    rw [if_neg hc, if_pos hl]
  · intro hfalse hnull
    have hl : ¬ (pageIsLast p = true) := by
      rw [pageIsLast, getKeyD, hfalse]
      simp [pyTruthy]
    have hn : (pageNext p).isNull = true := by
      rw [hnull]
      rfl
    simp only [pagedGetAux, hserve, hobj, hvs, if_true]
    rw [if_neg hc, if_neg hl, if_pos hn]

/-- Witness for C6: the two concrete defensive pages, run from the
`paged_get` entry state; each returns its items after one request. -/
theorem C6_witness :
    paged_get (fun _ => .ok w6PageA) .none 50 200 1
      = some ([[("start", .num 0), ("limit", .num 50)]], .ok [.num 5]) ∧
    paged_get (fun _ => .ok w6PageB) .none 50 200 1
      = some ([[("start", .num 0), ("limit", .num 50)]], .ok [.num 6]) := by
  constructor
  · exact (C6_defensive_stops (fun _ => .ok w6PageA) 50 200 0 0 (.num 0) [] []
      w6PageA [.num 5] rfl rfl rfl (by decide)).1 rfl
  · exact (C6_defensive_stops (fun _ => .ok w6PageB) 50 200 0 0 (.num 0) [] []
      w6PageB [.num 6] rfl rfl rfl (by decide)).2 rfl rfl

/-- Against `emptyPagesServe` the loop never exits: no iteration adds an
item, so the cap (here 1) can never fire, every page denies being last
and links onward. -/
theorem emptyPages_no_halt :
    ∀ (fuel idx : Nat) (start : JValue) (params : List (String × JValue)),
      pagedGetAux emptyPagesServe 50 1 fuel idx start params [] = none := by
  intro fuel
  induction fuel with
  | zero =>
    intro idx start params
    rfl
  | succ fuel IH =>
    intro idx start params
    simp [pagedGetAux, emptyPagesServe, JValue.isObj, pageValues,
      pageIsLast, pageNext, getKeyD, jLookup, lookupField, JValue.isNull,
      pyTruthy, pySliceTo, IH]

/-- C7 counterexample: a server whose every page reports `isLastPage`
false with an advancing non-null cursor, but carries an empty `values`
list.  `max_items = 1` is finite, yet `paged_get` never terminates — no
fuel bound makes the loop return, because the accumulator never grows
and the cap is never reached.  This refutes the claim that such a server
is always halted by the cap. -/
theorem C7_counterexample :
    ¬ ∃ fuel r, paged_get emptyPagesServe .none 50 1 fuel = some r := by
  rintro ⟨fuel, r, h⟩
  rw [paged_get, emptyPages_no_halt] at h
  exact Option.noConfusion h

/-- When every served page is a mapping contributing at least one item,
denying `isLastPage` and linking onward, the loop halts by filling the
cap: the run returns exactly `max_items.toNat` items. -/
theorem pagedGetAux_always_more (serve : Nat → Except BBError JValue)
    (limit max_items : Int) (hmax : 0 ≤ max_items)
    (hserve : ∀ i, ∃ p vs, serve i = .ok p ∧ p.isObj = true ∧
      pageValues p = .arr vs ∧ vs ≠ [] ∧ pageIsLast p = false ∧
      (pageNext p).isNull = false) :
    ∀ (fuel idx : Nat) (start : JValue) (params : List (String × JValue))
      (out : List JValue),
      1 ≤ fuel → max_items.toNat < out.length + fuel →
      ∃ trace items,
        pagedGetAux serve limit max_items fuel idx start params out
          = some (trace, .ok items) ∧ items.length = max_items.toNat := by
  intro fuel
  induction fuel with
  | zero =>
    intro idx start params out h1 _
    omega
  | succ fuel IH =>
    intro idx start params out _ hcnt
    obtain ⟨p, vs, hs, hobj, hvs, hne, hlast, hnext⟩ := hserve idx
    have hvs1 : 1 ≤ vs.length := by
      cases vs with
      | nil => exact absurd rfl hne
      | cons a l => simp
    simp only [pagedGetAux, hs, hobj, hvs, if_true]
    by_cases hcap : max_items ≤ (((out ++ vs).length : Int))
    · rw [if_pos hcap]
      refine ⟨_, _, rfl, ?_⟩
      rw [pySliceTo, if_pos hmax, List.length_take]
      simp only [List.length_append] at hcap ⊢
      omega
    · have hl : ¬ (pageIsLast p = true) := by simp [hlast]
      have hn : ¬ ((pageNext p).isNull = true) := by simp [hnext]
      rw [if_neg hcap, if_neg hl, if_neg hn]
      simp only [List.length_append, not_le] at hcap
      have h1f : 1 ≤ fuel := by
        push_cast at hcap
        omega
      obtain ⟨trace, items, htr, hil⟩ := IH (idx + 1) (pageNext p)
        (dictSet (dictSet params "start" start) "limit" (.num limit))
        (out ++ vs) h1f (by simp only [List.length_append]; omega)
      rw [htr]
      exact ⟨_, items, rfl, hil⟩

/-- C7 (amended): a misbehaving server that always reports `isLastPage`
false with a non-null cursor is halted by the `max_items` cap provided
its pages actually carry items (nonempty `values` lists): with a
nonnegative finite cap the run returns exactly `max_items` items within
`max_items.toNat + 1` requests.  (Without the nonempty-`values` proviso
the claim fails: see the counterexample.) -/
theorem C7_amended_termination (serve : Nat → Except BBError JValue)
    (params0 : Option (List (String × JValue))) (limit max_items : Int)
    (hmax : 0 ≤ max_items)
    (hserve : ∀ i, ∃ p vs, serve i = .ok p ∧ p.isObj = true ∧
      pageValues p = .arr vs ∧ vs ≠ [] ∧ pageIsLast p = false ∧
      (pageNext p).isNull = false) :
    ∃ trace items,
      paged_get serve params0 limit max_items (max_items.toNat + 1)
        = some (trace, .ok items) ∧ (items.length : Int) = max_items := by
  obtain ⟨trace, items, htr, hil⟩ :=
    pagedGetAux_always_more serve limit max_items hmax hserve
      (max_items.toNat + 1) 0 (.num 0) (params0.getD []) []
      (by omega) (by simp)
  refine ⟨trace, items, by simpa [paged_get] using htr, ?_⟩
  rw [hil]
  exact Int.toNat_of_nonneg hmax

/-- Witness for C7 (amended): single-item linked pages with cap 2; the
run returns two items. -/
theorem C7_witness :
    ∃ trace items,
      paged_get oneItemServe .none 50 2 3 = some (trace, .ok items) ∧
      (items.length : Int) = 2 := by
  refine C7_amended_termination oneItemServe .none 50 2 (by decide) ?_
  intro i
  exact ⟨_, [.num 7], rfl, rfl, rfl, by simp, rfl, rfl⟩

/-- Trace invariant of the loop: every issued request's parameter dict
holds the paginator's `limit`, holds some paginator-chosen `start` (the
first request holds the entry cursor), and looks up every other key
exactly as the reference dict `params0` does, provided the entry dict
already does so. -/
theorem pagedGetAux_trace_params (serve : Nat → Except BBError JValue)
    (limit max_items : Int) :
    ∀ (fuel idx : Nat) (start : JValue)
      (params params0 : List (String × JValue)) (out : List JValue)
      (trace : List (List (String × JValue))) (res : PagedResult),
      pagedGetAux serve limit max_items fuel idx start params out
        = some (trace, res) →
      (∀ k, k ≠ "start" → k ≠ "limit" →
        lookupField params k = lookupField params0 k) →
      (∀ q ∈ trace,
        lookupField q "limit" = some (.num limit) ∧
        (∃ s, lookupField q "start" = some s) ∧
        (∀ k, k ≠ "start" → k ≠ "limit" →
          lookupField q k = lookupField params0 k)) ∧
      (∀ q₀, trace.head? = some q₀ → lookupField q₀ "start" = some start) := by
  intro fuel
  induction fuel with
  | zero =>
    intro idx start params params0 out trace res htr _
    simp [pagedGetAux] at htr
  | succ fuel IH =>
    intro idx start params params0 out trace res htr hinv
    have hql : lookupField (dictSet (dictSet params "start" start) "limit"
        (.num limit)) "limit" = some (.num limit) :=
      lookupField_dictSet_self _ _ _
    have hqs : lookupField (dictSet (dictSet params "start" start) "limit"
        (.num limit)) "start" = some start := by
      rw [lookupField_dictSet_ne _ _ _ _ (by decide)]
      exact lookupField_dictSet_self _ _ _
    have hqk : ∀ k, k ≠ "start" → k ≠ "limit" →
        lookupField (dictSet (dictSet params "start" start) "limit"
          (.num limit)) k = lookupField params0 k := by
      intro k hk1 hk2
      rw [lookupField_dictSet_ne _ _ _ _ hk2,
        lookupField_dictSet_ne _ _ _ _ hk1]
      exact hinv k hk1 hk2
    have hfin : ∀ R : PagedResult,
        (some ([dictSet (dictSet params "start" start) "limit" (.num limit)],
            R) : Option (List (List (String × JValue)) × PagedResult))
          = some (trace, res) →
        (∀ q ∈ trace,
          lookupField q "limit" = some (.num limit) ∧
          (∃ s, lookupField q "start" = some s) ∧
          (∀ k, k ≠ "start" → k ≠ "limit" →
            lookupField q k = lookupField params0 k)) ∧
        (∀ q₀, trace.head? = some q₀ →
          lookupField q₀ "start" = some start) := by
      intro R htr2
      simp only [Option.some.injEq, Prod.mk.injEq] at htr2
      obtain ⟨h1, -⟩ := htr2
      subst h1
      constructor
      · intro q hq
        simp only [List.mem_singleton] at hq
        subst hq
        exact ⟨hql, ⟨start, hqs⟩, hqk⟩
      · intro q₀ hq
        simp only [List.head?_cons, Option.some.injEq] at hq
        subst hq
        exact hqs
    simp only [pagedGetAux] at htr
    split at htr
    · exact hfin _ htr
    · split at htr
      · split at htr
        · exact hfin _ htr
        · split at htr
          · exact hfin _ htr
          · split at htr
            · exact hfin _ htr
            · split at htr
              · exact absurd htr (by simp)
              · rename_i trace' res' heq2
                simp only [Option.some.injEq, Prod.mk.injEq] at htr
                obtain ⟨h1, -⟩ := htr
                subst h1
                obtain ⟨hall, -⟩ := IH _ _ _ params0 _ _ _ heq2 hqk
                constructor
                · intro q hq
                  simp only [List.mem_cons] at hq
                  rcases hq with hq | hq
                  · subst hq
                    exact ⟨hql, ⟨start, hqs⟩, hqk⟩
                  · exact hall q hq
                · intro q₀ hq
                  simp only [List.head?_cons, Option.some.injEq] at hq
                  subst hq
                  exact hqs
      · exact hfin _ htr

/-- C10: over any completed `paged_get` run, every issued request's query
parameters carry the paginator's own `limit` for the `limit` key and a
paginator-chosen cursor for the `start` key — the first request always
uses `start = 0`, whatever the caller put under `start` or `limit` —
while every other caller-supplied key looks up unchanged.  The caller's
own mapping is untouched: the loop works on the copy
`dict(params or \x7b\x7d)`, modelled here by value semantics. -/
theorem C10_param_handling (serve : Nat → Except BBError JValue)
    (params0 : List (String × JValue)) (limit max_items : Int) (fuel : Nat)
    (trace : List (List (String × JValue))) (res : PagedResult)
    (h : paged_get serve (some params0) limit max_items fuel
      = some (trace, res)) :
    (∀ q ∈ trace,
      lookupField q "limit" = some (.num limit) ∧
      (∃ s, lookupField q "start" = some s) ∧
      (∀ k, k ≠ "start" → k ≠ "limit" →
        lookupField q k = lookupField params0 k)) ∧
    (∀ q₀, trace.head? = some q₀ →
      lookupField q₀ "start" = some (.num 0)) :=
  pagedGetAux_trace_params serve limit max_items fuel 0 (.num 0)
    ((some params0).getD []) params0 [] trace res h (fun _ _ _ => rfl)

/-- Witness for C10: a caller mapping supplying `state`, and its own
`start = 99` and `limit = 7`; both requests of the run carry the
paginator's `limit = 50` and pass `state` through, and the first request
carries `start = 0`, overriding the caller's 99. -/
theorem C10_witness :
    ∃ trace res,
      paged_get w1Serve (some [("state", .str "OPEN"), ("start", .num 99),
        ("limit", .num 7)]) 50 200 2 = some (trace, res) ∧
      (∀ q ∈ trace,
        lookupField q "limit" = some (.num 50) ∧
        lookupField q "state" = some (.str "OPEN")) ∧
      (∀ q₀, trace.head? = some q₀ →
        lookupField q₀ "start" = some (.num 0)) := by
  refine ⟨[[("state", .str "OPEN"), ("start", .num 0), ("limit", .num 50)],
      [("state", .str "OPEN"), ("start", .num 2), ("limit", .num 50)]],
    .ok [.num 10, .num 20, .num 30], rfl, ?_, ?_⟩
  · have h := (C10_param_handling w1Serve
      [("state", .str "OPEN"), ("start", .num 99), ("limit", .num 7)]
      50 200 2 _ _ rfl).1
    intro q hq
    refine ⟨(h q hq).1, ?_⟩
    exact ((h q hq).2.2 "state" (by decide) (by decide)).trans rfl
  · exact (C10_param_handling w1Serve
      [("state", .str "OPEN"), ("start", .num 99), ("limit", .num 7)]
      50 200 2 _ _ rfl).2

end BBDC
